import Mathlib

/-!
Verification of the chatbot_v2 question-answering service.

The development shallowly embeds the two pieces of logic the repository
owns: the Google-Docs document parser (`parseDocContent` in
`import-from-google-docs.js`) and the confidence-gated answer resolver
(`POST` in `src/app/api/query/route.ts`), together with the Pinecone
query helpers (`src/lib/pinecone.ts`) and the batched ingestion uploader
(`uploadQAPairsToPinecone`).  JavaScript strings are modelled as `String`
backed by explicit, structurally recursive character-list versions of the
JS primitives (`split`, `trim`, `startsWith`, `includes`, `substring`),
so that every definition evaluates by kernel reduction.  Floating-point
scores are modelled as rationals: the resolver only compares scores and
passes them through, so the ordering of the concrete values is all that
matters.
-/

namespace Chatbot

/-! ### JavaScript string primitives, over `List Char` -/

/-- The whitespace characters JS `trim` / `\s` strip: space, tab, newline,
carriage return, vertical tab, form feed. -/
def jsWhitespace (c : Char) : Bool :=
  c == ' ' || c == '\t' || c == '\n' || c == '\r' || c == '\x0b' || c == '\x0c'

/-- JS `s.trim()`: strip leading and trailing whitespace. -/
def jsTrim (s : List Char) : List Char :=
  ((s.dropWhile jsWhitespace).reverse.dropWhile jsWhitespace).reverse

/-- JS `s.startsWith(pre)`. -/
def jsStartsWith (s pre : List Char) : Bool :=
  pre.isPrefixOf s

/-- JS `s.includes(sub)` for a non-empty `sub`. -/
def jsIncludes (sub : List Char) : List Char → Bool
  | [] => sub.isEmpty
  | c :: rest => sub.isPrefixOf (c :: rest) || jsIncludes sub rest

/-- Worker for `jsSplit`: scans the string one character at a time; `skip`
counts characters of an already-matched separator still to be consumed,
`acc` holds the current segment reversed. -/
def jsSplitGo (sep : List Char) : List Char → Nat → List Char → List (List Char)
  | [], _, acc => [acc.reverse]
  | _ :: rest, skip + 1, acc => jsSplitGo sep rest skip acc
  | c :: rest, 0, acc =>
    if sep.isPrefixOf (c :: rest) then
      acc.reverse :: jsSplitGo sep rest (sep.length - 1) []
    else
      jsSplitGo sep rest 0 (c :: acc)

/-- JS `s.split(sep)` for a non-empty separator `sep`: the segments between
consecutive non-overlapping occurrences of `sep`, scanned left to right
(empty segments preserved, as in JS). -/
def jsSplit (sep : List Char) (s : List Char) : List (List Char) :=
  jsSplitGo sep s 0 []

/-! ### Document parser (`parseDocContent`, import-from-google-docs.js) -/

/-- A question/answer record produced by the parser. -/
structure QAPair where
  question : String
  answer : String
deriving Repr, DecidableEq

/-- JavaScript regex `\w`: ASCII letters, digits and underscore. -/
def jsWordChar (c : Char) : Bool :=
  (('a' ≤ c) && (c ≤ 'z')) || (('A' ≤ c) && (c ≤ 'Z')) ||
    (('0' ≤ c) && (c ≤ '9')) || (c == '_')

/-- Characters the question sanitizer keeps: the complement of the regex
`[^\w\s.,?!;:()'"-]` in `parseDocContent`. -/
def allowedQuestionChar (c : Char) : Bool :=
  jsWordChar c || jsWhitespace c ||
    (['.', ',', '?', '!', ';', ':', '(', ')', '\'', '\"', '-'].contains c)

/-- Models `question.replace(/[^\w\s.,?!;:()'"-]/g, ' ').trim()`: every
character outside the allowed set becomes a space, then the result is
trimmed. -/
def sanitizeQuestion (q : List Char) : List Char :=
  jsTrim (q.map (fun c => if allowedQuestionChar c then c else ' '))

/-- Models `content.split('\n').map(line => line.trim()).filter(Boolean)`:
the non-empty trimmed lines of the document, in order. -/
def docLines (content : String) : List (List Char) :=
  ((jsSplit ['\n'] content.data).map jsTrim).filter (fun l => !l.isEmpty)

/-- One iteration of the Q/A loop of `parseDocContent` (lines 192-223):
`lines` is the whole line list (the split-line branch looks the line up in
it with `indexOf`), `line` the line under consideration; `some pair` when
the iteration pushes a pair onto `qaPairs`. -/
def processLine (lines : List (List Char)) (line : List Char) : Option QAPair :=
  if jsStartsWith line ['Q', ':'] && jsIncludes ['A', ':'] line then
    -- const parts = line.split('A:'); if (parts.length >= 2) { ... }
    match jsSplit ['A', ':'] line with
    | p0 :: p1 :: _ =>
        some { question := String.mk (sanitizeQuestion (jsTrim (p0.drop 2))),
               answer := String.mk (jsTrim p1) }
    | _ => none
  else if jsStartsWith line ['Q', ':'] then
    -- const nextIndex = lines.indexOf(line) + 1;
    let question := jsTrim (line.drop 2)
    match lines.get? (lines.indexOf line + 1) with
    | some next =>
        if jsStartsWith next ['A', ':'] then
          some { question := String.mk question,
                 answer := String.mk (jsTrim (next.drop 2)) }
        else none
    | none => none
  else none

/-- Models `parseDocContent(content)`: general sources are collected in a
first pass over the lines, Q/A pairs in a second pass. -/
def parseDocContent (content : String) : List QAPair × List String :=
  let lines := docLines content
  let generalSources := lines.filterMap (fun line =>
    if jsStartsWith line ['G', ':'] then
      let g := jsTrim (line.drop 2)
      if !g.isEmpty then some (String.mk g) else none
    else none)
  let qaPairs := lines.filterMap (fun line => processLine lines line)
  (qaPairs, generalSources)

/-! ### Answer resolver (`POST`, src/app/api/query/route.ts)

The route is modelled as a function of the parsed request body (`none`
when `request.json()` rejects) and of an environment describing what the
external providers return on this request: the QA matches and general
sources Pinecone would answer with, and the text the two OpenAI
generation helpers would produce.  Besides the HTTP outcome the model
returns the ordered list of provider calls the handler issues. -/

/-- Metadata `{question, answer}` of a stored QA match. -/
structure QAMetadata where
  question : String
  answer : String
deriving Repr, DecidableEq

/-- A Pinecone match as the route reads it (`PineconeMatch`). -/
structure PineconeMatch where
  id : String
  score : ℚ
  metadata : QAMetadata
deriving Repr, DecidableEq

/-- A general-source match (`metadata.content` is what the generation
helper reads). -/
structure GeneralSourceMatch where
  id : String
  score : ℚ
  content : String
deriving Repr, DecidableEq

/-- The JSON request body once parsed: `question` is absent or a string,
`topK` absent or a number. -/
structure RequestBody where
  question : Option String
  topK : Option Nat
deriving Repr, DecidableEq

/-- An outbound provider call made by the handler, in issue order. -/
inductive ProviderCall where
  | embed (text : String)
  | queryQA (topK : Nat)
  | queryGS (topK : Nat)
  | genQA
  | genGS
deriving Repr, DecidableEq

/-- The JSON body of a 200 response. -/
structure QueryResponse where
  question : String
  answer : String
  confidence : ℚ
  similarQuestions : List (String × ℚ)
  source : String
deriving Repr, DecidableEq

/-- The HTTP outcome of the route. -/
inductive ApiResult where
  | ok (response : QueryResponse)
  | badRequest
  | serverError
deriving Repr, DecidableEq

/-- HTTP status code of an outcome: 200, 400 (`Question is required`) or
500 (`Failed to process request`). -/
def ApiResult.statusCode : ApiResult → Nat
  | .ok _ => 200
  | .badRequest => 400
  | .serverError => 500

/-- What the external providers return for the request at hand. -/
structure Env where
  qaMatches : List PineconeMatch
  generalSources : List GeneralSourceMatch
  genAnswer : String → List PineconeMatch → String
  genAnswerFromGS : String → List GeneralSourceMatch → String

/-- Models `const CONFIDENCE_THRESHOLD = 0.80` in route.ts. -/
def CONFIDENCE_THRESHOLD : ℚ := 0.80

/-- The fixed fallback answer of the `no_sources` branch. -/
def FALLBACK_ANSWER : String :=
  "I'm sorry, I don't have enough information to answer that question accurately."

/-- JS `s.trim()` on a `String`. -/
def jsTrimStr (s : String) : String :=
  String.mk (jsTrim s.data)

/-- The `similarQuestions` field: `matches.map(m => ({question, score}))`. -/
def similarQuestionsOf (ms : List PineconeMatch) : List (String × ℚ) :=
  ms.map (fun m => (m.metadata.question, m.score))

/-- The POST handler of `src/app/api/query/route.ts`.  `req = none` models
a request body that fails to parse as JSON: `await request.json()` throws
and the surrounding try/catch returns the generic 500.  The second
component of the result is the trace of provider calls, in order. -/
def POST (req : Option RequestBody) (env : Env) : ApiResult × List ProviderCall :=
  match req with
  | none => (.serverError, [])
  | some body =>
    -- if (!body.question) return 400: absent or empty string is falsy
    match body.question with
    | none => (.badRequest, [])
    | some q =>
      if q = "" then (.badRequest, [])
      else
        let question := jsTrimStr q
        -- const topK = body.topK || 3
        let topK := match body.topK with
          | none => 3
          | some k => if k = 0 then 3 else k
        let calls := [ProviderCall.embed question, ProviderCall.queryQA topK]
        match env.qaMatches with
        | [] =>
          let calls := calls ++ [ProviderCall.queryGS 5]
          if env.generalSources.isEmpty then
            (.ok { question := question, answer := FALLBACK_ANSWER, confidence := 0,
                   similarQuestions := [], source := "no_sources" }, calls)
          else
            (.ok { question := question,
                   answer := env.genAnswerFromGS question env.generalSources,
                   confidence := 0, similarQuestions := [],
                   source := "general_sources" },
             calls ++ [ProviderCall.genGS])
        | bestMatch :: _ =>
          if bestMatch.score < CONFIDENCE_THRESHOLD then
            let calls := calls ++ [ProviderCall.queryGS 5]
            if env.generalSources.isEmpty then
              (.ok { question := question,
                     answer := env.genAnswer question env.qaMatches,
                     confidence := bestMatch.score,
                     similarQuestions := similarQuestionsOf env.qaMatches,
                     source := "similar_questions" },
               calls ++ [ProviderCall.genQA])
            else
              (.ok { question := question,
                     answer := env.genAnswerFromGS question env.generalSources,
                     confidence := bestMatch.score,
                     similarQuestions := similarQuestionsOf env.qaMatches,
                     source := "general_sources" },
               calls ++ [ProviderCall.genGS])
          else
            (.ok { question := question, answer := bestMatch.metadata.answer,
                   confidence := bestMatch.score,
                   similarQuestions := similarQuestionsOf env.qaMatches,
                   source := "pinecone_direct" }, calls)

/-- True exactly when the best QA match exists and scores below the
threshold (the route's `bestMatch.score < CONFIDENCE_THRESHOLD` test). -/
def bestBelowThreshold (env : Env) : Bool :=
  match env.qaMatches with
  | [] => false
  | m :: _ => m.score < CONFIDENCE_THRESHOLD

/-- Whether the trace contains a general-sources similarity query. -/
def traceHasQueryGS (calls : List ProviderCall) : Bool :=
  calls.any (fun c => match c with | .queryGS _ => true | _ => false)

/-- The decision tree exactly as the specification words it: inputs are
whether a best QA match is present, whether it scores below the
threshold, and whether the general sources came back empty. -/
def specSourceTag (bestMatchPresent belowThreshold generalSourcesEmpty : Bool) : String :=
  if !bestMatchPresent then
    if generalSourcesEmpty then "no_sources" else "general_sources"
  else if belowThreshold then
    if generalSourcesEmpty then "similar_questions" else "general_sources"
  else "pinecone_direct"

/-- An environment with no stored data and constant generation helpers,
used to instantiate the resolver theorems. -/
def emptyEnv : Env :=
  { qaMatches := [], generalSources := [],
    genAnswer := fun _ _ => "generated",
    genAnswerFromGS := fun _ _ => "generated" }

/-! ### Vector index and queries (src/lib/pinecone.ts)

One index holds two record kinds, distinguished only by the `type`
metadata field the ingestion scripts attach.  A similarity query is
modelled against a store whose records already carry their similarity
score for the query vector at hand: the index returns the `topK`
highest-scoring records among those passing the metadata filter, sorted
descending by score. -/

/-- Metadata of a stored record: the two kinds written by ingestion. -/
inductive RecordMetadata where
  | qaPairRec (question answer : String)
  | generalSourceRec (content : String)
deriving Repr, DecidableEq

/-- The `type` metadata field of a record. -/
def RecordMetadata.recordType : RecordMetadata → String
  | .qaPairRec _ _ => "qa_pair"
  | .generalSourceRec _ => "general_source"

/-- A stored record together with its similarity score against the
current query vector. -/
structure ScoredRecord where
  id : String
  score : ℚ
  metadata : RecordMetadata
deriving Repr, DecidableEq

/-- Insert a record into a list sorted descending by score. -/
def insertDesc (r : ScoredRecord) : List ScoredRecord → List ScoredRecord
  | [] => [r]
  | x :: xs => if x.score ≤ r.score then r :: x :: xs else x :: insertDesc r xs

/-- Sort records descending by score (the order Pinecone returns). -/
def sortByScoreDesc : List ScoredRecord → List ScoredRecord
  | [] => []
  | x :: xs => insertDesc x (sortByScoreDesc xs)

/-- The external `index.query({vector, topK, filter?})` contract: the
`topK` best-scoring records among those whose `type` passes the optional
filter. -/
def indexQuery (store : List ScoredRecord) (topK : Nat)
    (filter : Option String) : List ScoredRecord :=
  let candidates := match filter with
    | none => store
    | some t => store.filter (fun r => r.metadata.recordType = t)
  (sortByScoreDesc candidates).take topK

/-- Embeds `querySimilarQuestions` of src/lib/pinecone.ts: the query
carries only `vector`, `topK` and `includeMetadata` — no metadata
filter. -/
def querySimilarQuestions (store : List ScoredRecord) (topK : Nat := 1) :
    List ScoredRecord :=
  indexQuery store topK none

/-- Modelled from the spec: `queryGeneralSources` is imported by the query
route from `@/lib/pinecone` but its definition is not among the sources;
per the spec, queries for the `general_source` kind filter the index by
the `type` metadata field. -/
def queryGeneralSources (store : List ScoredRecord) (topK : Nat) :
    List ScoredRecord :=
  indexQuery store topK (some "general_source")

/-! ### Ingestion (`uploadQAPairsToPinecone`, import-from-google-docs.js)

The uploader slices the QA list into batches of `batchSize` and, per
batch, dispatches the embedding calls concurrently
(`Promise.all(batch.map(async ...))`); each record's id `q<counter++>` is
computed when its embedding resolves, so the shared counter is consumed
in completion order within the batch, while the upserted array keeps
input order.  General sources follow the same way with ids `g<counter>`.
The model therefore takes, besides the embedding provider, a schedule:
one completion-rank list per batch.  It returns the list of upsert
calls, in order, each call carrying its records in order. -/

/-- A record upserted into the index. -/
structure UpsertRecord where
  id : String
  values : List ℚ
  metadata : RecordMetadata
deriving Repr, DecidableEq

/-- Models `const batchSize = 10`. -/
def batchSize : Nat := 10

/-- Models the slicing loop
`for (let i = 0; i < xs.length; i += batchSize) batches.push(xs.slice(i, i + batchSize))`. -/
def toBatches : List α → List (List α)
  | [] => []
  | x :: xs => (x :: xs).take batchSize :: toBatches ((x :: xs).drop batchSize)
termination_by l => l.length
decreasing_by simp [List.length_drop, batchSize]; omega

/-- The vector built for one QA pair: embedding of the question, id
`q<c>`, metadata `{type: 'qa_pair', question, answer}`. -/
def qaVector (embed : String → List ℚ) (c : Nat) (pair : QAPair) : UpsertRecord :=
  { id := "q" ++ toString c, values := embed pair.question,
    metadata := .qaPairRec pair.question pair.answer }

/-- The vector built for one general source: embedding of the content, id
`g<c>`, metadata `{type: 'general_source', content}`. -/
def generalVector (embed : String → List ℚ) (c : Nat) (content : String) : UpsertRecord :=
  { id := "g" ++ toString c, values := embed content,
    metadata := .generalSourceRec content }

/-- One batch's `Promise.all(batch.map(async ...))` with the running
counter starting at `c`.  The id is computed as `q<counter++>` only after
the batch's concurrently dispatched embedding call resolves, so the
counter is consumed in completion order, not array order: `ranks`
records, for each batch position, how many of the batch's embeddings
completed before it, and that position's record gets the id
`<prefix><c + rank>`.  The returned array itself keeps the batch's input
order (`Promise.all` preserves positions). -/
def buildVectors (mk : Nat → α → UpsertRecord) (c : Nat) (ranks : List Nat)
    (batch : List α) : List UpsertRecord :=
  (batch.zip ranks).map (fun p => mk (c + p.2) p.1)

/-- The per-batch upsert loop: one `index.upsert(vectors)` call per batch
paired with that batch's completion-rank list; the counter advances by
the batch's length (it is incremented exactly once per record) before the
next batch starts. -/
def uploadBatches (mk : Nat → α → UpsertRecord) :
    Nat → List (List Nat × List α) → List (List UpsertRecord)
  | _, [] => []
  | c, sb :: rest => buildVectors mk c sb.1 sb.2 :: uploadBatches mk (c + sb.2.length) rest

/-- A well-formed completion schedule for a batch list: one rank list per
batch, each a permutation of that batch's positions (every embedding
completes exactly once). -/
def ValidSchedule (sched : List (List Nat)) (batches : List (List α)) : Prop :=
  sched.length = batches.length ∧
    ∀ sb ∈ sched.zip batches, sb.1.Perm (List.range sb.2.length)

/-- The schedule in which every batch's embeddings complete in input
order — the only schedules under which ids are positional. -/
def orderedSchedule (batches : List (List α)) : List (List Nat) :=
  batches.map (fun b => List.range b.length)

/-- Models `uploadQAPairsToPinecone(qaPairs, generalSources)`: all QA
batches are upserted first (ids `q0, q1, …`), then all general-source
batches (ids `g0, g1, …`); each run starts both counters at 0.  The two
schedule arguments carry the completion order of the embedding calls
within each QA batch and each general-source batch. -/
def uploadQAPairsToPinecone (embed : String → List ℚ)
    (qaSchedule gSchedule : List (List Nat)) (qaPairs : List QAPair)
    (generalSources : List String) : List (List UpsertRecord) :=
  uploadBatches (qaVector embed) 0 (qaSchedule.zip (toBatches qaPairs))
    ++ uploadBatches (generalVector embed) 0 (gSchedule.zip (toBatches generalSources))

/-! ### Concrete inputs used to instantiate the theorems -/

/-- A stored QA match scoring exactly at the confidence threshold. -/
def thresholdMatch : PineconeMatch :=
  { id := "q0", score := CONFIDENCE_THRESHOLD,
    metadata := { question := "stored question", answer := "stored answer" } }

/-- An environment whose single QA match scores exactly at the threshold. -/
def thresholdEnv : Env :=
  { qaMatches := [thresholdMatch],
    generalSources := [],
    genAnswer := fun _ _ => "generated",
    genAnswerFromGS := fun _ _ => "generated" }

/-- An environment with a high-confidence QA match and a non-empty set of
stored general sources. -/
def highConfidenceEnv : Env :=
  { qaMatches := [{ id := "q0", score := 0.92,
                    metadata := { question := "stored question", answer := "stored answer" } }],
    generalSources := [{ id := "g0", score := 0.5, content := "general info" }],
    genAnswer := fun _ _ => "generated",
    genAnswerFromGS := fun _ _ => "generated" }

/-- A store holding a single general-source record. -/
def generalOnlyStore : List ScoredRecord :=
  [{ id := "g0", score := 1, metadata := .generalSourceRec "general info" }]

/-- A two-pair ingestion input, short enough for a single batch. -/
def twoQAPairs : List QAPair :=
  [{ question := "a", answer := "1" }, { question := "b", answer := "2" }]

/-- A concrete embedding provider used to instantiate the ingestion
theorems (the ids never depend on the returned vectors). -/
def embed0 : String → List ℚ := fun _ => []

/-! ## Theorems -/

/-! ### Helper lemmas -/

/-- The number of segments `jsSplitGo` produces does not depend on the
accumulated current segment. -/
theorem length_jsSplitGo_acc (sep : List Char) :
    ∀ (s : List Char) (skip : Nat) (acc acc' : List Char),
      (jsSplitGo sep s skip acc).length = (jsSplitGo sep s skip acc').length := by
  intro s
  induction s with
  | nil => intro skip acc acc'; simp [jsSplitGo]
  | cons c rest ih =>
    intro skip acc acc'
    cases skip with
    | zero =>
      by_cases hp : sep.isPrefixOf (c :: rest)
      · simp [jsSplitGo, hp]
      · simp only [jsSplitGo, if_neg hp]
        exact ih 0 (c :: acc) (c :: acc')
    | succ n =>
      simp only [jsSplitGo]
      exact ih n acc acc'

/-- A split with at least two segments means the separator occurs in the
string. -/
theorem jsIncludes_of_split (sep : List Char) :
    ∀ s : List Char, 2 ≤ (jsSplit sep s).length → jsIncludes sep s = true := by
  intro s
  induction s with
  | nil => intro h; simp [jsSplit, jsSplitGo] at h
  | cons c rest ih =>
    intro h
    by_cases hp : sep.isPrefixOf (c :: rest)
    · simp [jsIncludes, hp]
    · simp only [jsSplit, jsSplitGo, if_neg hp] at h
      rw [length_jsSplitGo_acc sep rest 0 [c] []] at h
      simp [jsIncludes, ih h]

/-- Membership in an insertion step of the descending sort. -/
theorem mem_insertDesc {r a : ScoredRecord} : ∀ {l : List ScoredRecord},
    a ∈ insertDesc r l → a = r ∨ a ∈ l := by
  intro l
  induction l with
  | nil => intro h; simp only [insertDesc, List.mem_singleton] at h; exact Or.inl h
  | cons x xs ih =>
    intro h
    by_cases hle : x.score ≤ r.score
    · simp only [insertDesc, if_pos hle, List.mem_cons] at h
      rcases h with h1 | h1 | h1
      · exact Or.inl h1
      · exact Or.inr (by simp [h1])
      · exact Or.inr (by simp [h1])
    · simp only [insertDesc, if_neg hle, List.mem_cons] at h
      rcases h with h1 | h1
      · exact Or.inr (by simp [h1])
      · rcases ih h1 with h2 | h2
        · exact Or.inl h2
        · exact Or.inr (by simp [h2])

/-- Sorting by score does not add records. -/
theorem mem_sortByScoreDesc {a : ScoredRecord} : ∀ {l : List ScoredRecord},
    a ∈ sortByScoreDesc l → a ∈ l := by
  intro l
  induction l with
  | nil => intro h; simp [sortByScoreDesc] at h
  | cons x xs ih =>
    intro h
    rcases mem_insertDesc h with h' | h'
    · simp [h']
    · exact List.mem_cons_of_mem _ (ih h')

/-- Every record built for a batch is an instance of its maker. -/
theorem mem_buildVectors (mk : Nat → α → UpsertRecord) (c : Nat) (s : List Nat)
    (b : List α) (r : UpsertRecord) :
    r ∈ buildVectors mk c s b → ∃ c' x, r = mk c' x := by
  intro h
  rw [buildVectors] at h
  rcases List.mem_map.mp h with ⟨p, _, rfl⟩
  exact ⟨c + p.2, p.1, rfl⟩

/-- Every record upserted across the batches is an instance of the maker. -/
theorem mem_uploadBatches (mk : Nat → α → UpsertRecord) :
    ∀ (pairs : List (List Nat × List α)) (c : Nat) (r : UpsertRecord),
      r ∈ (uploadBatches mk c pairs).flatten → ∃ c' x, r = mk c' x := by
  intro pairs
  induction pairs with
  | nil => intro c r h; simp [uploadBatches] at h
  | cons sb rest ih =>
    intro c r h
    simp only [uploadBatches, List.flatten_cons, List.mem_append] at h
    rcases h with h | h
    · exact mem_buildVectors mk c sb.1 sb.2 r h
    · exact ih (c + sb.2.length) r h

/-- Concatenating the batches gives back the input list. -/
theorem toBatches_flatten : ∀ (l : List α), (toBatches l).flatten = l := by
  intro l
  induction l using toBatches.induct with
  | case1 => simp [toBatches]
  | case2 x xs ih =>
    rw [toBatches, List.flatten_cons, ih, List.take_append_drop]

/-- No batch exceeds the batch size. -/
theorem toBatches_batch_le (l : List α) : ∀ b ∈ toBatches l, b.length ≤ batchSize := by
  induction l using toBatches.induct with
  | case1 => simp [toBatches]
  | case2 x xs ih =>
    intro b hb
    rw [toBatches, List.mem_cons] at hb
    rcases hb with hb | hb
    · subst hb; simp [List.length_take]
    · exact ih b hb

/-- Every batch except possibly the last is full. -/
theorem toBatches_dropLast_len (l : List α) :
    ∀ b ∈ (toBatches l).dropLast, b.length = batchSize := by
  induction l using toBatches.induct with
  | case1 => simp [toBatches]
  | case2 x xs ih =>
    intro b hb
    rw [toBatches] at hb
    cases hrest : toBatches ((x :: xs).drop batchSize) with
    | nil => rw [hrest] at hb; simp at hb
    | cons b' bs' =>
      rw [hrest, List.dropLast_cons₂, List.mem_cons] at hb
      have hdrop : (x :: xs).drop batchSize ≠ [] := by
        intro hnil
        rw [hnil] at hrest
        simp [toBatches] at hrest
      have hlen : batchSize < (x :: xs).length := by
        by_contra hcon
        push_neg at hcon
        exact hdrop (List.drop_eq_nil_of_le hcon)
      rcases hb with hb | hb
      · subst hb
        rw [List.length_cons] at hlen
        rw [List.length_take, List.length_cons]
        omega
      · rw [← hrest] at hb
        exact ih b hb

/-- A list short enough for one batch is its own single batch. -/
theorem toBatches_of_le (l : List α) (hne : l ≠ []) (hle : l.length ≤ batchSize) :
    toBatches l = [l] := by
  cases l with
  | nil => exact absurd rfl hne
  | cons x xs =>
    rw [toBatches, List.take_of_length_le hle, List.drop_eq_nil_of_le hle]
    simp [toBatches]

/-- Two consecutive id blocks concatenate into one. -/
theorem range_add_map (f : Nat → String) (c a b : Nat) :
    (List.range a).map (fun i => f (c + i)) ++
        (List.range b).map (fun i => f (c + a + i)) =
      (List.range (a + b)).map (fun i => f (c + i)) := by
  rw [List.range_add, List.map_append, List.map_map]
  congr 1
  apply List.map_congr_left
  intro i _
  simp only [Function.comp_apply]
  rw [show c + (a + i) = c + a + i by omega]

/-- The ids a batch receives are its completion-rank list shifted by the
counter. -/
theorem buildVectors_map_id (mk : Nat → α → UpsertRecord) (f : Nat → String)
    (hid : ∀ c x, (mk c x).id = f c) (c : Nat) (s : List Nat) (b : List α)
    (hlen : s.length ≤ b.length) :
    (buildVectors mk c s b).map UpsertRecord.id = s.map (fun k => f (c + k)) := by
  rw [buildVectors, List.map_map]
  have h1 : (UpsertRecord.id ∘ fun p : α × Nat => mk (c + p.2) p.1) =
      ((fun k => f (c + k)) ∘ Prod.snd) := funext fun p => hid _ _
  rw [h1, ← List.map_map, List.map_snd_zip _ _ hlen]

/-- Under any well-formed schedule, the ids assigned across the batches
are a permutation of the consecutive range the counter covers. -/
theorem uploadBatches_ids_perm (mk : Nat → α → UpsertRecord) (f : Nat → String)
    (hid : ∀ c x, (mk c x).id = f c) :
    ∀ (pairs : List (List Nat × List α)) (c : Nat),
      (∀ sb ∈ pairs, sb.1.Perm (List.range sb.2.length)) →
      ((uploadBatches mk c pairs).flatten.map UpsertRecord.id).Perm
        ((List.range ((pairs.map (fun sb => sb.2.length)).sum)).map
          (fun i => f (c + i))) := by
  intro pairs
  induction pairs with
  | nil => intro c h; simp [uploadBatches]
  | cons sb rest ih =>
    intro c h
    obtain ⟨s, b⟩ := sb
    have hperm : s.Perm (List.range b.length) := h _ (List.mem_cons_self _ _)
    have hlen : s.length ≤ b.length := by rw [hperm.length_eq, List.length_range]
    have h1 : ((buildVectors mk c s b).map UpsertRecord.id).Perm
        ((List.range b.length).map (fun k => f (c + k))) := by
      rw [buildVectors_map_id mk f hid c s b hlen]
      exact hperm.map _
    have h2 := ih (c + b.length) (fun sb hsb => h _ (List.mem_cons_of_mem _ hsb))
    have h3 := h1.append h2
    rw [range_add_map] at h3
    simpa using h3

/-- The upserted records keep input order in everything but the id: the
metadata stream equals the input stream, whatever the schedule. -/
theorem uploadBatches_map_metadata (mk : Nat → α → UpsertRecord)
    (g : α → RecordMetadata) (hmeta : ∀ c x, (mk c x).metadata = g x) :
    ∀ (pairs : List (List Nat × List α)) (c : Nat),
      (∀ sb ∈ pairs, sb.2.length ≤ sb.1.length) →
      (uploadBatches mk c pairs).flatten.map UpsertRecord.metadata =
        ((pairs.map (fun sb => sb.2)).flatten).map g := by
  intro pairs
  induction pairs with
  | nil => intro c h; simp [uploadBatches]
  | cons sb rest ih =>
    intro c h
    obtain ⟨s, b⟩ := sb
    have hlen : b.length ≤ s.length := h _ (List.mem_cons_self _ _)
    have h1 : (buildVectors mk c s b).map UpsertRecord.metadata = b.map g := by
      rw [buildVectors, List.map_map]
      have h2 : (UpsertRecord.metadata ∘ fun p : α × Nat => mk (c + p.2) p.1) =
          (g ∘ Prod.fst) := funext fun p => hmeta _ _
      rw [h2, ← List.map_map, List.map_fst_zip _ _ hlen]
    simp only [uploadBatches, List.flatten_cons, List.map_append, List.map_cons,
      List.flatten_cons, h1,
      ih (c + b.length) (fun sb hsb => h _ (List.mem_cons_of_mem _ hsb))]

/-- Zipping the in-order schedule with its batches pairs every batch with
its own position range. -/
theorem zip_orderedSchedule (batches : List (List α)) :
    (orderedSchedule batches).zip batches =
      batches.map (fun b => (List.range b.length, b)) := by
  induction batches with
  | nil => simp [orderedSchedule]
  | cons b bs ih =>
    simp only [orderedSchedule] at ih
    simp [orderedSchedule, List.zip_cons_cons, ih]

/-- Under the in-order schedule the ids are exactly positional. -/
theorem uploadBatches_ordered_ids (mk : Nat → α → UpsertRecord) (f : Nat → String)
    (hid : ∀ c x, (mk c x).id = f c) :
    ∀ (batches : List (List α)) (c : Nat),
      ((uploadBatches mk c ((orderedSchedule batches).zip batches)).flatten.map
          UpsertRecord.id) =
        (List.range ((batches.map List.length).sum)).map (fun i => f (c + i)) := by
  intro batches
  induction batches with
  | nil => intro c; simp [orderedSchedule, uploadBatches]
  | cons b bs ih =>
    intro c
    rw [zip_orderedSchedule] at ih ⊢
    simp only [List.map_cons, uploadBatches, List.flatten_cons, List.map_append]
    rw [buildVectors_map_id mk f hid c _ b (by rw [List.length_range]),
        ih (c + b.length), List.sum_cons,
        ← range_add_map f c b.length ((bs.map List.length).sum)]

/-- Ids of one side of a run under any well-formed schedule: a
permutation of the positional ids. -/
theorem uploadRun_ids_perm (mk : Nat → α → UpsertRecord) (f : Nat → String)
    (hid : ∀ c x, (mk c x).id = f c) (sched : List (List Nat)) (l : List α)
    (h : ValidSchedule sched (toBatches l)) :
    ((uploadBatches mk 0 (sched.zip (toBatches l))).flatten.map UpsertRecord.id).Perm
      ((List.range l.length).map f) := by
  have hperm := uploadBatches_ids_perm mk f hid (sched.zip (toBatches l)) 0 h.2
  have hsum : ((sched.zip (toBatches l)).map (fun sb => sb.2.length)).sum = l.length := by
    have hmap : (sched.zip (toBatches l)).map (fun sb => sb.2.length) =
        (toBatches l).map List.length := by
      rw [show (fun sb : List Nat × List α => sb.2.length) = (List.length ∘ Prod.snd)
            from rfl,
          ← List.map_map, List.map_snd_zip _ _ (le_of_eq h.1.symm)]
    rw [hmap, ← List.length_flatten, toBatches_flatten]
  rw [hsum] at hperm
  simpa [Nat.zero_add] using hperm

/-- Metadata of one side of a run: input order, independent of the
schedule. -/
theorem uploadRun_metadata (mk : Nat → α → UpsertRecord) (g : α → RecordMetadata)
    (hmeta : ∀ c x, (mk c x).metadata = g x) (sched : List (List Nat)) (l : List α)
    (h : ValidSchedule sched (toBatches l)) :
    (uploadBatches mk 0 (sched.zip (toBatches l))).flatten.map UpsertRecord.metadata =
      l.map g := by
  have hlens : ∀ sb ∈ sched.zip (toBatches l), sb.2.length ≤ sb.1.length := by
    intro sb hsb
    exact le_of_eq ((h.2 sb hsb).length_eq.trans (List.length_range _)).symm
  rw [uploadBatches_map_metadata mk g hmeta _ 0 hlens,
      show (fun sb : List Nat × List α => sb.2) = Prod.snd from rfl,
      List.map_snd_zip _ _ (le_of_eq h.1.symm), toBatches_flatten]

/-- Ids of one side of a run under the in-order schedule: positional. -/
theorem uploadRun_ordered_ids (mk : Nat → α → UpsertRecord) (f : Nat → String)
    (hid : ∀ c x, (mk c x).id = f c) (l : List α) :
    ((uploadBatches mk 0
        ((orderedSchedule (toBatches l)).zip (toBatches l))).flatten.map UpsertRecord.id) =
      (List.range l.length).map f := by
  rw [uploadBatches_ordered_ids mk f hid (toBatches l) 0, ← List.length_flatten,
      toBatches_flatten]
  simp [Nat.zero_add]

/-! ### Claim theorems -/

/-- C1: for every combination of QA-match presence, general-source
emptiness and score position relative to the threshold, the resolver
returns a 200 response whose `source` is exactly the tag the
specification's decision tree assigns, and that tag is one of the four
defined ones — no combination falls through unhandled. -/
theorem resolver_decision_tree_total (env : Env) (body : RequestBody) (q : String)
    (hq : body.question = some q) (hne : q ≠ "") :
    ∃ r, (POST (some body) env).1 = ApiResult.ok r ∧
      r.source = specSourceTag (!env.qaMatches.isEmpty) (bestBelowThreshold env)
          env.generalSources.isEmpty ∧
      (r.source = "pinecone_direct" ∨ r.source = "general_sources" ∨
       r.source = "similar_questions" ∨ r.source = "no_sources") := by
  obtain ⟨bq, bk⟩ := body
  simp only at hq
  subst hq
  obtain ⟨ms, gs, gA, gGS⟩ := env
  simp only [POST, if_neg hne, specSourceTag, bestBelowThreshold]
  cases ms with
  | nil =>
    cases gs with
    | nil => exact ⟨_, rfl, by simp⟩
    | cons g gs' => exact ⟨_, rfl, by simp⟩
  | cons m ms' =>
    by_cases hs : m.score < CONFIDENCE_THRESHOLD
    · simp only [if_pos hs]
      cases gs with
      | nil => exact ⟨_, rfl, by simp [hs]⟩
      | cons g gs' => exact ⟨_, rfl, by simp [hs]⟩
    · simp only [if_neg hs]
      exact ⟨_, rfl, by simp [hs]⟩

/-- Witness for C1: the decision tree instantiated on a concrete request
against the empty environment. -/
theorem resolver_decision_tree_total_witness :
    ∃ r, (POST (some { question := some "hi", topK := none }) emptyEnv).1 = ApiResult.ok r ∧
      r.source = specSourceTag (!emptyEnv.qaMatches.isEmpty) (bestBelowThreshold emptyEnv)
          emptyEnv.generalSources.isEmpty ∧
      (r.source = "pinecone_direct" ∨ r.source = "general_sources" ∨
       r.source = "similar_questions" ∨ r.source = "no_sources") :=
  resolver_decision_tree_total emptyEnv { question := some "hi", topK := none } "hi"
    rfl (by decide)

/-- C2: a best match scoring exactly at `CONFIDENCE_THRESHOLD` takes the
high-confidence branch: source `pinecone_direct`, the stored answer
verbatim, and the match's score as confidence. -/
theorem threshold_score_is_high_confidence (env : Env) (body : RequestBody) (q : String)
    (bestMatch : PineconeMatch) (rest : List PineconeMatch)
    (hq : body.question = some q) (hne : q ≠ "")
    (hm : env.qaMatches = bestMatch :: rest)
    (hs : bestMatch.score = CONFIDENCE_THRESHOLD) :
    (POST (some body) env).1 =
      ApiResult.ok { question := jsTrimStr q, answer := bestMatch.metadata.answer,
                     confidence := bestMatch.score,
                     similarQuestions := similarQuestionsOf env.qaMatches,
                     source := "pinecone_direct" } := by
  obtain ⟨bq, bk⟩ := body
  simp only at hq
  subst hq
  have hlt : ¬ bestMatch.score < CONFIDENCE_THRESHOLD := by rw [hs]; exact lt_irrefl _
  simp only [POST, if_neg hne, hm, if_neg hlt]

/-- Witness for C2: a concrete environment whose single match scores
exactly at the threshold. -/
theorem threshold_score_is_high_confidence_witness :
    (POST (some { question := some "hi", topK := none }) thresholdEnv).1 =
      ApiResult.ok { question := jsTrimStr "hi",
                     answer := thresholdMatch.metadata.answer,
                     confidence := thresholdMatch.score,
                     similarQuestions := similarQuestionsOf thresholdEnv.qaMatches,
                     source := "pinecone_direct" } :=
  threshold_score_is_high_confidence thresholdEnv { question := some "hi", topK := none } "hi"
    thresholdMatch [] rfl (by decide) rfl rfl

/-- C3 (amended): a missing question or the empty-string question is
rejected with 400 and no provider call; the whitespace-only case is
excluded — see the counterexample. -/
theorem missing_or_empty_question_rejected (env : Env) (body : RequestBody)
    (h : body.question = none ∨ body.question = some "") :
    POST (some body) env = (ApiResult.badRequest, []) := by
  obtain ⟨bq, bk⟩ := body
  rcases h with h | h <;> simp only at h <;> subst h <;> simp [POST]

/-- Witness for C3 (amended): the empty-string question. -/
theorem missing_or_empty_question_rejected_witness :
    POST (some { question := some "", topK := none }) emptyEnv = (ApiResult.badRequest, []) :=
  missing_or_empty_question_rejected emptyEnv _ (Or.inr rfl)

/-- Counterexample to C3 as stated: the whitespace-only question `" "` is
truthy in JS, so validation passes; the endpoint answers 200 and issues
the embedding call (on the trimmed, now empty, string) and both
similarity queries. -/
theorem whitespace_question_not_rejected :
    (POST (some { question := some " ", topK := none }) emptyEnv).1.statusCode = 200 ∧
    (POST (some { question := some " ", topK := none }) emptyEnv).2 =
      [ProviderCall.embed "", ProviderCall.queryQA 3, ProviderCall.queryGS 5] := by
  constructor <;> rfl

/-- C4 (amended): a line starting with `Q:` that splits at `A:` into at
least two segments yields the pair whose question is the first segment
with the `Q:` prefix dropped, trimmed, sanitized and re-trimmed, and
whose answer is the second segment — the text strictly between the first
`A:` and the next `A:` (or the end of the line) — trimmed; everything
from the second `A:` onward is discarded. -/
theorem sameline_pair_splits_at_first_A (lines : List (List Char)) (line p0 p1 : List Char)
    (rest : List (List Char))
    (h1 : jsStartsWith line ['Q', ':'] = true)
    (h2 : jsSplit ['A', ':'] line = p0 :: p1 :: rest) :
    processLine lines line =
      some { question := String.mk (sanitizeQuestion (jsTrim (p0.drop 2))),
             answer := String.mk (jsTrim p1) } := by
  have hinc : jsIncludes ['A', ':'] line = true :=
    jsIncludes_of_split _ line (by rw [h2]; simp)
  simp only [processLine, h1, hinc, Bool.and_self, if_pos, h2]

/-- Witness for C4 (amended): a concrete line with two occurrences of
`A:`. -/
theorem sameline_pair_splits_at_first_A_witness :
    processLine ["Q: x A: y A: z".data] "Q: x A: y A: z".data =
      some { question := String.mk (sanitizeQuestion (jsTrim ("Q: x ".data.drop 2))),
             answer := String.mk (jsTrim " y ".data) } :=
  sameline_pair_splits_at_first_A ["Q: x A: y A: z".data] "Q: x A: y A: z".data
    "Q: x ".data " y ".data [" z".data] (by decide) (by decide)

/-- Counterexample to C4 as stated: on `Q: x A: y A: z` the parser emits
the answer `y`, not everything after the first `A:` (which would be
`y A: z`). -/
theorem sameline_second_A_segment_discarded :
    parseDocContent "Q: x A: y A: z" = ([{ question := "x", answer := "y" }], []) ∧
    ("y" : String) ≠ "y A: z" := by
  constructor
  · decide
  · decide

/-- C5 (amended): for a line starting with `Q:` without `A:` on it, the
parser consults the line after the FIRST occurrence of the identical
line text (JS `lines.indexOf(line) + 1`), not after the occurrence at
hand: if that line starts with `A:` a pair is emitted with both prefixes
stripped and trimmed, otherwise the question is dropped.  Repeated
identical question lines therefore all emit the answer following the
first occurrence. -/
theorem splitline_answer_from_first_occurrence (lines : List (List Char)) (line : List Char)
    (h1 : jsStartsWith line ['Q', ':'] = true)
    (h2 : jsIncludes ['A', ':'] line = false) :
    processLine lines line =
      (match lines.get? (lines.indexOf line + 1) with
       | some next =>
           if jsStartsWith next ['A', ':'] then
             some { question := String.mk (jsTrim (line.drop 2)),
                    answer := String.mk (jsTrim (next.drop 2)) }
           else none
       | none => none) := by
  simp only [processLine, h1, h2, Bool.and_false, Bool.false_eq_true, if_false, if_pos]

/-- Witness for C5 (amended): the duplicated question line of the
counterexample document. -/
theorem splitline_answer_from_first_occurrence_witness :
    processLine ["Q:x".data, "A:1".data, "Q:x".data, "A:2".data] "Q:x".data =
      (match ["Q:x".data, "A:1".data, "Q:x".data, "A:2".data].get?
          ((["Q:x".data, "A:1".data, "Q:x".data, "A:2".data].indexOf "Q:x".data) + 1) with
       | some next =>
           if jsStartsWith next ['A', ':'] then
             some { question := String.mk (jsTrim ("Q:x".data.drop 2)),
                    answer := String.mk (jsTrim (next.drop 2)) }
           else none
       | none => none) :=
  splitline_answer_from_first_occurrence _ _ (by decide) (by decide)

/-- Counterexample to C5 as stated: in `Q:x / A:1 / Q:x / A:2` the second
occurrence of `Q:x` is paired with `1` again (the line after the first
occurrence), not with the `2` that follows it. -/
theorem duplicate_question_reuses_first_answer :
    parseDocContent "Q:x\nA:1\nQ:x\nA:2" =
      ([{ question := "x", answer := "1" }, { question := "x", answer := "1" }], []) ∧
    ([{ question := "x", answer := "1" }, { question := "x", answer := "1" }] : List QAPair) ≠
      [{ question := "x", answer := "1" }, { question := "x", answer := "2" }] := by
  constructor
  · decide
  · decide

/-- C6: the parser is a total function — every input string yields a pair
of collections — and on empty, whitespace-only or marker-free malformed
input both collections are empty. -/
theorem parser_is_total :
    (∀ content : String, ∃ qaPairs generalSources,
        parseDocContent content = (qaPairs, generalSources)) ∧
    parseDocContent "" = ([], []) ∧
    parseDocContent " \n\t \n " = ([], []) ∧
    parseDocContent "no markers here!\nA: orphan answer\n@@@ ###" = ([], []) := by
  refine ⟨fun content => ⟨_, _, rfl⟩, by decide, by decide, by decide⟩

/-- C7 (amended): ingestion tags every upserted record with a `type` of
`qa_pair` or `general_source` and the general-source query filters by
that field, but `querySimilarQuestions` issues its query without any
type filter, so a QA query can return general-source records. -/
theorem queries_filter_partially :
    (∀ (store : List ScoredRecord) (topK : Nat),
        ∀ r ∈ queryGeneralSources store topK, r.metadata.recordType = "general_source") ∧
    (∀ (embed : String → List ℚ) (qaSchedule gSchedule : List (List Nat))
        (qaPairs : List QAPair) (gs : List String),
        ∀ r ∈ (uploadQAPairsToPinecone embed qaSchedule gSchedule qaPairs gs).flatten,
          r.metadata.recordType = "qa_pair" ∨ r.metadata.recordType = "general_source") ∧
    ¬ (∀ (store : List ScoredRecord) (topK : Nat),
        ∀ r ∈ querySimilarQuestions store topK, r.metadata.recordType = "qa_pair") := by
  refine ⟨?_, ?_, ?_⟩
  · intro store topK r hr
    have h1 : r ∈ sortByScoreDesc (store.filter
        (fun r => r.metadata.recordType = "general_source")) :=
      List.mem_of_mem_take hr
    have h2 := mem_sortByScoreDesc h1
    have h3 := List.mem_filter.mp h2
    simpa using h3.2
  · intro embed qaSchedule gSchedule qaPairs gs r hr
    rw [uploadQAPairsToPinecone, List.flatten_append, List.mem_append] at hr
    rcases hr with hr | hr
    · rcases mem_uploadBatches _ _ _ _ hr with ⟨c', x, rfl⟩
      exact Or.inl rfl
    · rcases mem_uploadBatches _ _ _ _ hr with ⟨c', x, rfl⟩
      exact Or.inr rfl
  · intro h
    have hm : ({ id := "g0", score := 1, metadata := .generalSourceRec "general info" } : ScoredRecord)
        ∈ querySimilarQuestions generalOnlyStore 1 := by
      rw [show querySimilarQuestions generalOnlyStore 1 = generalOnlyStore from rfl]
      simp [generalOnlyStore]
    have h4 := h generalOnlyStore 1 _ hm
    exact absurd h4 (by decide)

/-- Counterexample to C7 as stated: on a store holding one
general-source record, the unfiltered QA query returns that record. -/
theorem qa_query_returns_general_record :
    querySimilarQuestions generalOnlyStore 3 = generalOnlyStore ∧
    RecordMetadata.recordType (RecordMetadata.generalSourceRec "general info") = "general_source" :=
  ⟨rfl, rfl⟩

/-- C8 (amended): the route issues the general-source similarity query
only conditionally and after the QA query — exactly when the QA query
returned no match or the best match scores below the threshold — and
never on a high-confidence request. -/
theorem generalsource_query_is_conditional (env : Env) (body : RequestBody) (q : String)
    (hq : body.question = some q) (hne : q ≠ "") :
    traceHasQueryGS (POST (some body) env).2 =
      (env.qaMatches.isEmpty || bestBelowThreshold env) := by
  obtain ⟨bq, bk⟩ := body
  simp only at hq
  subst hq
  obtain ⟨ms, gs, gA, gGS⟩ := env
  simp only [POST, if_neg hne, bestBelowThreshold, traceHasQueryGS]
  cases ms with
  | nil => cases gs <;> simp [traceHasQueryGS]
  | cons m ms' =>
    by_cases hs : m.score < CONFIDENCE_THRESHOLD
    · simp only [if_pos hs]
      cases gs <;> simp [traceHasQueryGS, hs]
    · simp only [if_neg hs]
      simp [traceHasQueryGS, hs]

/-- Witness for C8 (amended): the conditional-query equation on a
concrete request against the empty environment. -/
theorem generalsource_query_is_conditional_witness :
    traceHasQueryGS (POST (some { question := some "hi", topK := none }) emptyEnv).2 =
      (emptyEnv.qaMatches.isEmpty || bestBelowThreshold emptyEnv) :=
  generalsource_query_is_conditional emptyEnv _ "hi" rfl (by decide)

/-- Counterexample to C8 as stated: on a high-confidence request the
general-source query is not dispatched at all, although general sources
exist in the environment — the trace holds only the embedding call and
the QA query. -/
theorem high_confidence_skips_generalsource_query :
    (POST (some { question := some "hours", topK := none }) highConfidenceEnv).2 =
      [ProviderCall.embed "hours", ProviderCall.queryQA 3] ∧
    traceHasQueryGS (POST (some { question := some "hours", topK := none }) highConfidenceEnv).2 = false := by
  have hlt : ¬ ((0.92 : ℚ) < CONFIDENCE_THRESHOLD) := by norm_num [CONFIDENCE_THRESHOLD]
  constructor
  · simp only [POST, highConfidenceEnv]
    rw [if_neg (by decide : ¬ ("hours" : String) = ""), if_neg hlt]
    rfl
  · simp only [POST, highConfidenceEnv, traceHasQueryGS]
    rw [if_neg (by decide : ¬ ("hours" : String) = ""), if_neg hlt]
    rfl

/-- C9 (amended): ingestion slices the QA input into consecutive batches
of at most `batchSize = 10` (all but the last full) whose concatenation
restores the input, processed in order with the shared counter advancing
by each batch's length.  Under every well-formed completion schedule the
upserted records keep input order in their metadata and the assigned ids
are a permutation of `q0..q(n-1)` (then `g0..` for general sources) in
which each batch owns its consecutive block — a property of the input
and schedule alone, so any re-run restarts at `q0`.  The ids are exactly
positional precisely under the in-order schedule; which record of a
batch gets which id of its block otherwise depends on the order the
batch's concurrent embedding calls complete. -/
theorem ingestion_batches_and_id_blocks (embed : String → List ℚ)
    (qaSchedule gSchedule : List (List Nat))
    (qaPairs : List QAPair) (generalSources : List String)
    (hqa : ValidSchedule qaSchedule (toBatches qaPairs))
    (hg : ValidSchedule gSchedule (toBatches generalSources)) :
    (toBatches qaPairs).flatten = qaPairs ∧
    (∀ b ∈ toBatches qaPairs, b.length ≤ batchSize) ∧
    (∀ b ∈ (toBatches qaPairs).dropLast, b.length = batchSize) ∧
    (uploadQAPairsToPinecone embed qaSchedule gSchedule qaPairs generalSources).flatten.map
        UpsertRecord.metadata =
      qaPairs.map (fun p => RecordMetadata.qaPairRec p.question p.answer) ++
        generalSources.map RecordMetadata.generalSourceRec ∧
    ((uploadQAPairsToPinecone embed qaSchedule gSchedule qaPairs generalSources).flatten.map
        UpsertRecord.id).Perm
      ((List.range qaPairs.length).map (fun i => "q" ++ toString i) ++
        (List.range generalSources.length).map (fun i => "g" ++ toString i)) ∧
    (uploadQAPairsToPinecone embed (orderedSchedule (toBatches qaPairs))
          (orderedSchedule (toBatches generalSources)) qaPairs generalSources).flatten.map
        UpsertRecord.id =
      (List.range qaPairs.length).map (fun i => "q" ++ toString i) ++
        (List.range generalSources.length).map (fun i => "g" ++ toString i) := by
  refine ⟨toBatches_flatten qaPairs, toBatches_batch_le qaPairs,
          toBatches_dropLast_len qaPairs, ?_, ?_, ?_⟩
  · rw [uploadQAPairsToPinecone, List.flatten_append, List.map_append,
        uploadRun_metadata (qaVector embed)
          (fun p => RecordMetadata.qaPairRec p.question p.answer) (fun _ _ => rfl)
          qaSchedule qaPairs hqa,
        uploadRun_metadata (generalVector embed) RecordMetadata.generalSourceRec
          (fun _ _ => rfl) gSchedule generalSources hg]
  · rw [uploadQAPairsToPinecone, List.flatten_append, List.map_append]
    exact (uploadRun_ids_perm (qaVector embed) (fun c => "q" ++ toString c)
        (fun _ _ => rfl) qaSchedule qaPairs hqa).append
      (uploadRun_ids_perm (generalVector embed) (fun c => "g" ++ toString c)
        (fun _ _ => rfl) gSchedule generalSources hg)
  · rw [uploadQAPairsToPinecone, List.flatten_append, List.map_append,
        uploadRun_ordered_ids (qaVector embed) (fun c => "q" ++ toString c)
          (fun _ _ => rfl) qaPairs,
        uploadRun_ordered_ids (generalVector embed) (fun c => "g" ++ toString c)
          (fun _ _ => rfl) generalSources]

/-- Witness for C9 (amended): the two-pair single batch under the
out-of-order completion schedule. -/
theorem ingestion_batches_and_id_blocks_witness :
    (toBatches twoQAPairs).flatten = twoQAPairs ∧
    (∀ b ∈ toBatches twoQAPairs, b.length ≤ batchSize) ∧
    (∀ b ∈ (toBatches twoQAPairs).dropLast, b.length = batchSize) ∧
    (uploadQAPairsToPinecone embed0 [[1, 0]] [] twoQAPairs []).flatten.map
        UpsertRecord.metadata =
      twoQAPairs.map (fun p => RecordMetadata.qaPairRec p.question p.answer) ++
        ([] : List String).map RecordMetadata.generalSourceRec ∧
    ((uploadQAPairsToPinecone embed0 [[1, 0]] [] twoQAPairs []).flatten.map
        UpsertRecord.id).Perm
      ((List.range twoQAPairs.length).map (fun i => "q" ++ toString i) ++
        (List.range ([] : List String).length).map (fun i => "g" ++ toString i)) ∧
    (uploadQAPairsToPinecone embed0 (orderedSchedule (toBatches twoQAPairs))
          (orderedSchedule (toBatches ([] : List String))) twoQAPairs []).flatten.map
        UpsertRecord.id =
      (List.range twoQAPairs.length).map (fun i => "q" ++ toString i) ++
        (List.range ([] : List String).length).map (fun i => "g" ++ toString i) :=
  ingestion_batches_and_id_blocks embed0 [[1, 0]] [] twoQAPairs []
    (by
      rw [ValidSchedule, toBatches_of_le twoQAPairs (by decide) (by decide)]
      refine ⟨rfl, ?_⟩
      intro sb hsb
      simp only [List.zip_cons_cons, List.zip_nil_right, List.mem_singleton] at hsb
      subst hsb
      decide)
    (by
      rw [ValidSchedule, show toBatches ([] : List String) = [] from by simp [toBatches]]
      exact ⟨rfl, by simp⟩)

/-- Counterexample to C9 as stated: a legal completion order in which the
batch's second embedding resolves first.  The shared counter is consumed
in completion order, so position 0 gets `q1` and position 1 gets `q0` —
the record at zero-based position i does not carry `q<i>`. -/
theorem out_of_order_completion_permutes_ids :
    ValidSchedule [[1, 0]] (toBatches twoQAPairs) ∧
    (uploadQAPairsToPinecone embed0 [[1, 0]] [] twoQAPairs []).flatten.map
        UpsertRecord.id = ["q1", "q0"] ∧
    (["q1", "q0"] : List String) ≠ ["q0", "q1"] := by
  have hb : toBatches twoQAPairs = [twoQAPairs] :=
    toBatches_of_le twoQAPairs (by decide) (by decide)
  have hnil : toBatches ([] : List String) = [] := by simp [toBatches]
  refine ⟨?_, ?_, by decide⟩
  · rw [ValidSchedule, hb]
    refine ⟨rfl, ?_⟩
    intro sb hsb
    simp only [List.zip_cons_cons, List.zip_nil_right, List.mem_singleton] at hsb
    subst hsb
    decide
  · rw [uploadQAPairsToPinecone, hb, hnil]
    decide

/-- C10: an unparseable request body yields the generic 500 (the parse
rejection lands in the catch-all), never 400; and the 400 validation path
fires exactly for a parsed body whose question is absent or the empty
string. -/
theorem parse_failure_is_500_validation_only_400 (env : Env) (body : RequestBody) :
    POST none env = (ApiResult.serverError, []) ∧
    (((POST (some body) env).1 = ApiResult.badRequest) ↔
      (body.question = none ∨ body.question = some "")) := by
  refine ⟨rfl, ?_⟩
  obtain ⟨bq, bk⟩ := body
  cases bq with
  | none => simp [POST]
  | some q =>
    by_cases hq : q = ""
    · subst hq; simp [POST]
    · simp only [POST, if_neg hq]
      obtain ⟨ms, gs, gA, gGS⟩ := env
      cases ms with
      | nil =>
        cases gs <;> simp [hq]
      | cons m ms' =>
        by_cases hs : m.score < CONFIDENCE_THRESHOLD
        · simp only [if_pos hs]
          cases gs <;> simp [hq]
        · simp only [if_neg hs]
          simp [hq]

end Chatbot

